import Mathlib

/-!
# FileMatrix: a disk-resident matrix with a one-row cache

Shallow embedding of `zaj13FileMatrix/FileMatrix.hpp`.

Modelling conventions:

* `IndexType` is the default template argument `std::size_t` of an LP64
  platform: 8 bytes wide, arithmetic modulo `2 ^ 64`; `int` is 32 bits wide.
* The element type `T` occupies `E = sizeof(T)` bytes; `E` is a parameter.
  The row buffer `currentRow_` is kept as raw memory (a list of bytes), the way
  the source moves it to and from the file through `reinterpret_cast<char*>`;
  `rowElements` gives its element view for little-endian unsigned elements.
* The file system maps a path to an inode and an inode to its bytes, and says
  at which paths a new file can be created (a non-empty name in an existing
  directory); an existing file can always be opened. An open `std::fstream`
  holds the inode, its failure flag and its (single, joint) position. An open
  that fails leaves a closed stream with failbit set. Streams are unbuffered
  in the model, so `fstream::flush()` has no effect on it.
* A C++ operation ends in one of three ways: normally, by throwing
  `std::out_of_range` (the state at the throw is kept), or in undefined
  behaviour.
-/

namespace FileMatrix

/-! ## Machine integers and byte encodings -/

/-- The value of `sizeof(IndexType)` for `IndexType = std::size_t`. -/
def sizeofIndex : Nat := 8

/-- Modulus of `std::size_t` arithmetic. -/
def sizeMod : Nat := 2 ^ 64

/-- The value of `INT_MAX` for a 32-bit `int`. -/
def intMax : Nat := 2 ^ 31 - 1

/-- Largest offset a `std::streamoff` (signed 64-bit) can hold, plus one. -/
def streamoffLimit : Nat := 2 ^ 63

/-- Little-endian object representation of an unsigned value in `n` bytes. -/
def toBytes : Nat → Nat → List Nat
  | 0, _ => []
  | n + 1, v => (v % 256) :: toBytes n (v / 256)

/-- Value of a little-endian byte sequence. -/
def ofBytes : List Nat → Nat
  | [] => 0
  | b :: bs => b + 256 * ofBytes bs

/-- Object representation of an array of elements of `E` bytes each. -/
def encodeRow (E : Nat) : List Nat → List Nat
  | [] => []
  | x :: xs => toBytes E x ++ encodeRow E xs

/-- The first `n` elements of `E` bytes each held by a block of raw memory. -/
def rowElements (E : Nat) : Nat → List Nat → List Nat
  | 0, _ => []
  | n + 1, bs => ofBytes (bs.take E) :: rowElements E n (bs.drop E)

/-! ## File system and streams -/

/-- Directory (path to inode), inode contents, the next unused inode, and the
paths at which a new file can be created. -/
structure FileSystem where
  dir : String → Option Nat
  bytes : Nat → List Nat
  nextIno : Nat
  creatable : String → Bool

/-- A file system without any file and with the working directory as its only
directory: a file can be created at every non-empty path without a slash. -/
def FileSystem.empty : FileSystem :=
  ⟨fun _ => none, fun _ => [], 0, fun p => !p.data.isEmpty && p.data.all (fun c => c != '/')⟩

/-- Whether opening `path` for writing succeeds: the path is not empty, and the
file exists or can be created. -/
def FileSystem.canOpenOut (fs : FileSystem) (path : String) : Bool :=
  path != "" && ((fs.dir path).isSome || fs.creatable path)

/-- Contents of the file at a path, when there is one. -/
def FileSystem.fileAt (fs : FileSystem) (path : String) : Option (List Nat) :=
  (fs.dir path).map fs.bytes

/-- State of a `std::fstream`: open file, failure flag, position. -/
structure FStream where
  ino : Option Nat
  failed : Bool
  pos : Nat
  deriving DecidableEq, Repr

/-- A default-constructed `std::fstream`. -/
def FStream.closed : FStream := ⟨none, false, 0⟩

/-- Opening with `ios::out` (with or without `ios::trunc`): creates the file or
truncates it; fails (failbit, no file) for the empty path and where no file
can be created. -/
def openTrunc (fs : FileSystem) (path : String) : FileSystem × FStream :=
  if fs.canOpenOut path then
    match fs.dir path with
    | some i => ({ fs with bytes := Function.update fs.bytes i [] }, ⟨some i, false, 0⟩)
    | none =>
      ({ fs with dir := Function.update fs.dir path (some fs.nextIno),
                 bytes := Function.update fs.bytes fs.nextIno [],
                 nextIno := fs.nextIno + 1 }, ⟨some fs.nextIno, false, 0⟩)
  else (fs, ⟨none, true, 0⟩)

/-- Opening with `ios::in | ios::out`: fails (failbit) when the file is absent. -/
def openRW (fs : FileSystem) (path : String) : FStream :=
  if path = "" then ⟨none, true, 0⟩
  else match fs.dir path with
    | some i => ⟨some i, false, 0⟩
    | none => ⟨none, true, 0⟩

/-- The call `fstream::close()`. -/
def FStream.close (s : FStream) : FStream :=
  match s.ino with
  | some _ => { s with ino := none }
  | none => { s with failed := true }

/-- The calls `seekg(off, ios::beg)` and `seekp(off, ios::beg)`: nothing on a
failed stream, failure on a closed stream or a negative `streamoff`. -/
def FStream.seek (s : FStream) (off : Nat) : FStream :=
  if s.failed then s
  else match s.ino with
    | none => { s with failed := true }
    | some _ => if off < streamoffLimit then { s with pos := off } else { s with failed := true }

/-- Bytes of a file after writing `data` at position `pos` (a gap is zero-filled). -/
def writeAt (old : List Nat) (pos : Nat) (data : List Nat) : List Nat :=
  if data = [] then old
  else (old ++ List.replicate (pos - old.length) 0).take pos ++ data ++ old.drop (pos + data.length)

/-- The call `ostream::write` on the model. -/
def streamWrite (fs : FileSystem) (s : FStream) (data : List Nat) : FileSystem × FStream :=
  if s.failed then (fs, s)
  else match s.ino with
    | none => (fs, if data = [] then s else { s with failed := true })
    | some i =>
      ({ fs with bytes := Function.update fs.bytes i (writeAt (fs.bytes i) s.pos data) },
       { s with pos := s.pos + data.length })

/-- The call `istream::read` of `n` bytes: the stream afterwards and the bytes
obtained (fewer than `n` sets failbit and eofbit). -/
def streamRead (fs : FileSystem) (s : FStream) (n : Nat) : FStream × List Nat :=
  if s.failed then (s, [])
  else match s.ino with
    | none => (if n = 0 then s else { s with failed := true }, [])
    | some i =>
      let got := ((fs.bytes i).drop s.pos).take n
      ({ s with pos := s.pos + got.length, failed := decide (got.length < n) }, got)

/-- Everything a `streambuf` yields from its current position to end of file. -/
def streamRest (fs : FileSystem) (s : FStream) : List Nat :=
  match s.ino with
  | none => []
  | some i => (fs.bytes i).drop s.pos

/-- The call `std::rename(old, new)` with POSIX semantics: nothing happens when
`old` is absent or `new` can neither be replaced nor created. -/
def rename (fs : FileSystem) (old new : String) : FileSystem :=
  match fs.dir old with
  | none => fs
  | some i =>
    if fs.dir new = some i then fs
    else if fs.canOpenOut new then
      { fs with dir := Function.update (Function.update fs.dir old none) new (some i) }
    else fs

/-! ## The class -/

/-- Fields of `FileMatrix<T, IndexType>`; `currentRow_` is `none` for a null
`unique_ptr`, otherwise the raw bytes of the array it owns. -/
structure Matrix where
  filename_ : String
  rows_ : Nat
  columns_ : Nat
  fileDescriptor_ : FStream
  currentRow_ : Option (List Nat)
  currentRowNumber_ : Nat
  deriving DecidableEq, Repr

/-- How a member function ends. -/
inductive Result (α : Type) where
  | ok (val : α)
  | outOfRange (fs : FileSystem) (m : Matrix)
  | undefined

/-- The constructor `FileMatrix(const std::string& filename)`; also the state of
an object whose members are all default-initialised when `filename` is empty. -/
def bind (filename : String) : Matrix :=
  ⟨filename, 0, 0, FStream.closed, none, 0⟩

/-- Accessor `rows()`. -/
def Matrix.rows (m : Matrix) : Nat := m.rows_

/-- Accessor `columns()`. -/
def Matrix.columns (m : Matrix) : Nat := m.columns_

/-- The expression `2*sizeof(IndexType) + r * columns_ * sizeof(T)` in `size_t`. -/
def rowOffset (E : Nat) (m : Matrix) (r : Nat) : Nat :=
  (2 * sizeofIndex + r * m.columns_ * E) % sizeMod

/-- The method `flush()`. -/
def flush (E : Nat) (fs : FileSystem) (m : Matrix) : Result (FileSystem × Matrix) :=
  let s := m.fileDescriptor_.seek (rowOffset E m m.currentRowNumber_)
  let n := (E * m.columns_) % sizeMod
  if s.failed then .ok (fs, { m with fileDescriptor_ := s })
  else match m.currentRow_ with
    | none =>
      if n = 0 then .ok (fs, { m with fileDescriptor_ := s }) else .undefined
    | some buf =>
      if buf.length < n then .undefined
      else
        let w := streamWrite fs s (buf.take n)
        .ok (w.1, { m with fileDescriptor_ := w.2 })

/-- The method `loadRow(indexOfRow)`. -/
def loadRow (E : Nat) (fs : FileSystem) (m : Matrix) (indexOfRow : Nat) :
    Result (FileSystem × Matrix) :=
  if indexOfRow ≥ m.rows_ then .outOfRange fs m
  else
    match (if m.currentRow_.isSome then flush E fs m else .ok (fs, m)) with
    | .ok (fs1, m1) =>
      let m2 := { m1 with currentRowNumber_ := indexOfRow }
      let off := rowOffset E m2 m2.currentRowNumber_
      let s := (m2.fileDescriptor_.seek off).seek off
      let r := streamRead fs1 s ((m2.columns_ * E) % sizeMod)
      let buf := r.2 ++ (List.replicate (m2.columns_ * E) 0).drop r.2.length
      .ok (fs1, { m2 with fileDescriptor_ := r.1, currentRow_ := some buf })
    | .outOfRange fs1 m1 => .outOfRange fs1 m1
    | .undefined => .undefined

/-- Both forms of `operator[](indexOfRow)`: the state afterwards; the pointer
returned is the resident buffer `currentRow_`. -/
def index (E : Nat) (fs : FileSystem) (m : Matrix) (indexOfRow : Nat) :
    Result (FileSystem × Matrix) :=
  loadRow E fs m indexOfRow

/-- Storing through the pointer returned by `operator[]`: the caller overwrites
the resident buffer. -/
def Matrix.store (m : Matrix) (raw : List Nat) : Matrix :=
  { m with currentRow_ := some raw }

/-- The `E` zero bytes of `T buff {}` written `n` times. -/
def zeroFill (E : Nat) : Nat → List Nat
  | 0 => []
  | n + 1 => List.replicate E 0 ++ zeroFill E n

/-- The constructor `FileMatrix(rows, columns, newFileName)`. The loop counter is
an `int`, so more than `INT_MAX` iterations overflow it. -/
def create (E : Nat) (fs : FileSystem) (rows columns : Nat) (newFileName : String) :
    Result (FileSystem × Matrix) :=
  let o := openTrunc fs newFileName
  let n := (rows * columns) % sizeMod
  if n > intMax then .undefined
  else
    let w := streamWrite o.1 o.2
      (toBytes sizeofIndex rows ++ toBytes sizeofIndex columns ++ zeroFill E n)
    let m : Matrix :=
      { filename_ := newFileName, rows_ := rows, columns_ := columns,
        fileDescriptor_ := openRW w.1 newFileName, currentRow_ := none,
        currentRowNumber_ := 0 }
    loadRow E w.1 m 0

/-! ## File lifecycle -/

/-- The call `std::string::rfind(c)`: index of the last occurrence, `none` for `npos`. -/
def rfind (c : Char) : List Char → Option Nat
  | [] => none
  | x :: xs =>
    match rfind c xs with
    | some k => some (k + 1)
    | none => if x = c then some 0 else none

/-- The call `std::string::insert(pos, suffix)` for `pos` within the string. -/
def insertAt (s : List Char) (pos : Nat) (suffix : List Char) : List Char :=
  s.take pos ++ suffix ++ s.drop pos

/-- The method `setFilename(filename, suffix)`. -/
def setFilename (m : Matrix) (filename suffix : String) : Matrix :=
  match rfind '.' filename.data with
  | some pos => { m with filename_ := String.mk (insertAt filename.data pos suffix.data) }
  | none => { m with filename_ := filename }

/-- The method `copy(sourceMatrix)` run on `self`; the result holds the object
and the source (whose stream position is mutable). The new buffer has `rows_`
elements and `rows_` elements are read from the source buffer. -/
def copy (E : Nat) (fs : FileSystem) (self src : Matrix) :
    Result (FileSystem × Matrix × Matrix) :=
  let o := openTrunc fs self.filename_
  let s := (src.fileDescriptor_.seek 0).seek 0
  let data := streamRest o.1 s
  let w := streamWrite o.1 o.2 data
  let src1 := { src with fileDescriptor_ := { s with pos := s.pos + data.length } }
  let self1 (buf : List Nat) : Matrix :=
    { self with rows_ := src.rows_, columns_ := src.columns_,
                currentRowNumber_ := src.currentRowNumber_,
                currentRow_ := some buf,
                fileDescriptor_ := openRW w.1 self.filename_ }
  if src.rows_ = 0 then .ok (w.1, self1 [], src1)
  else match src.currentRow_ with
    | none => .undefined
    | some buf =>
      if buf.length < src.rows_ * E then .undefined
      else .ok (w.1, self1 (buf.take (src.rows_ * E)), src1)

/-- The method `move(sourceMatrix)` run on `self`; the result holds the object
and the source. -/
def move (fs : FileSystem) (self src : Matrix) : FileSystem × Matrix × Matrix :=
  let self1 : Matrix :=
    { self with rows_ := src.rows_, columns_ := src.columns_,
                currentRow_ := src.currentRow_,
                currentRowNumber_ := src.currentRowNumber_,
                fileDescriptor_ := openRW fs self.filename_ }
  let src1 : Matrix :=
    { src with rows_ := 0, columns_ := 0, currentRow_ := none, currentRowNumber_ := 0 }
  (rename fs src.filename_ self.filename_, self1, src1)

/-- The copy constructor `FileMatrix(const FileMatrix&)`. -/
def copyConstruct (E : Nat) (fs : FileSystem) (src : Matrix) :
    Result (FileSystem × Matrix × Matrix) :=
  copy E fs (setFilename (bind "") src.filename_ "_copy") src

/-- The move constructor `FileMatrix(FileMatrix&&)`. -/
def moveConstruct (fs : FileSystem) (src : Matrix) : FileSystem × Matrix × Matrix :=
  move fs (setFilename (bind "") src.filename_ "_move") src

/-- Copy assignment `operator=(const FileMatrix&)` between two distinct objects. -/
def copyAssign (E : Nat) (fs : FileSystem) (self src : Matrix) :
    Result (FileSystem × Matrix × Matrix) :=
  copy E fs self src

/-- Move assignment `operator=(FileMatrix&&)` between two distinct objects. -/
def moveAssign (fs : FileSystem) (self src : Matrix) : FileSystem × Matrix × Matrix :=
  move fs self src

/-- The destructor `~FileMatrix()`: closes the stream and releases the buffer. -/
def destroy (fs : FileSystem) (m : Matrix) : FileSystem × Matrix :=
  (fs, { m with fileDescriptor_ := m.fileDescriptor_.close, currentRow_ := none })

/-! ## Comparison -/

/-- The three-iterator `std::equal` over two `istreambuf_iterator` ranges: walks
the first range; reading the second past its end is undefined (`none`). -/
def equalRange : List Nat → List Nat → Option Bool
  | [], _ => some true
  | _ :: _, [] => none
  | a :: as, b :: bs => if a = b then equalRange as bs else some false

/-- The operator `operator==` on two objects. Where the two stream positions
end up is not tracked. -/
def operatorEq (fs : FileSystem) (a b : Matrix) : Result Bool :=
  if a.rows_ ≠ b.rows_ ∨ a.columns_ ≠ b.columns_ then .ok false
  else
    match equalRange (streamRest fs (a.fileDescriptor_.seek 0))
        (streamRest fs (b.fileDescriptor_.seek 0)) with
    | some r => .ok r
    | none => .undefined

/-- The operator `operator!=`. -/
def operatorNe (fs : FileSystem) (a b : Matrix) : Result Bool :=
  match operatorEq fs a b with
  | .ok r => .ok (!r)
  | .outOfRange fs1 m1 => .outOfRange fs1 m1
  | .undefined => .undefined

/-! ## Scalar multiplication -/

/-- Multiplication of two unsigned elements of `E` bytes. -/
def mulElem (E : Nat) (x k : Nat) : Nat := (x * k) % 256 ^ E

/-- A row buffer of `n` elements after each element is multiplied in place by `k`. -/
def scaleRow (E : Nat) (k : Nat) (n : Nat) (raw : List Nat) : List Nat :=
  encodeRow E ((rowElements E n raw).map (fun x => mulElem E x k))

/-- Modelled from the spec: the loop of `operator*=`, which the header declares
but does not define. For the `count` row indices from `r` on it loads the row,
multiplies every element in place by the scalar and flushes the row. -/
def mulAssignLoop (E : Nat) (k : Nat) : Nat → Nat → FileSystem → Matrix →
    Result (FileSystem × Matrix)
  | 0, _, fs, m => .ok (fs, m)
  | count + 1, r, fs, m =>
    match loadRow E fs m r with
    | .ok (fs1, m1) =>
      match flush E fs1
          { m1 with currentRow_ := m1.currentRow_.map (scaleRow E k m1.columns_) } with
      | .ok (fs2, m2) => mulAssignLoop E k count (r + 1) fs2 m2
      | .outOfRange fs2 m2 => .outOfRange fs2 m2
      | .undefined => .undefined
    | .outOfRange fs1 m1 => .outOfRange fs1 m1
    | .undefined => .undefined

/-- Modelled from the spec: the operator `operator*=(value)`, declared in the
header without a definition: every row index in `[0, rowCount)` in turn. -/
def mulAssign (E : Nat) (fs : FileSystem) (m : Matrix) (k : Nat) :
    Result (FileSystem × Matrix) :=
  mulAssignLoop E k m.rows_ 0 fs m

/-! ## Specification vocabulary -/

/-- Bytes of row `r` in a file image of a matrix with `C` columns. -/
def fileRow (E : Nat) (image : List Nat) (C r : Nat) : List Nat :=
  (image.drop (2 * sizeofIndex + r * C * E)).take (C * E)

/-- The state a healthy matrix with dimensions is in: the stream is open and has
not failed, the file has the size the layout prescribes (and that size is a
valid stream offset), and the resident buffer holds `columns_` elements of a row
inside the matrix. -/
def WellFormed (E : Nat) (fs : FileSystem) (m : Matrix) : Prop :=
  ∃ k buf, m.fileDescriptor_.ino = some k ∧ m.fileDescriptor_.failed = false ∧
    (fs.bytes k).length = 2 * sizeofIndex + m.rows_ * m.columns_ * E ∧
    2 * sizeofIndex + m.rows_ * m.columns_ * E < streamoffLimit ∧
    m.currentRow_ = some buf ∧ buf.length = m.columns_ * E ∧
    m.currentRowNumber_ < m.rows_

/-- Bytes of row `r` as the program sees them: the resident buffer for the
resident row, the file for any other row. -/
def logicalRow (E : Nat) (fs : FileSystem) (m : Matrix) (r : Nat) : List Nat :=
  match m.fileDescriptor_.ino, m.currentRow_ with
  | some k, some buf =>
    if r = m.currentRowNumber_ then buf else fileRow E (fs.bytes k) m.columns_ r
  | _, _ => []

/-- A file system holding `a.matrix`, the image of a 2-by-2 matrix of one-byte
elements with rows 1, 2 and 3, 4. -/
def sampleFs : FileSystem :=
  ⟨fun p => if p = "a.matrix" then some 0 else none,
   fun i => if i = 0 then [2, 0, 0, 0, 0, 0, 0, 0, 2, 0, 0, 0, 0, 0, 0, 0, 1, 2, 3, 4] else [],
   1, fun _ => false⟩

/-- A matrix open on `a.matrix` of `sampleFs` with row 0 resident. -/
def sampleMatrix : Matrix :=
  ⟨"a.matrix", 2, 2, ⟨some 0, false, 18⟩, some [1, 2], 0⟩

/-- A file system holding `x` with the single byte 1 and `y` with the single byte 2. -/
def twoFiles : FileSystem :=
  ⟨fun p => if p = "x" then some 0 else if p = "y" then some 1 else none,
   fun i => if i = 0 then [1] else if i = 1 then [2] else [], 2, fun _ => false⟩

end FileMatrix

namespace FileMatrix

/-! ## Basic facts -/

theorem flush_ne_outOfRange (E : Nat) (fs : FileSystem) (m : Matrix) (fs1 : FileSystem)
    (m1 : Matrix) : flush E fs m ≠ .outOfRange fs1 m1 := by
  intro h
  simp only [flush] at h
  by_cases hf : (m.fileDescriptor_.seek (rowOffset E m m.currentRowNumber_)).failed = true
  · rw [if_pos hf] at h; cases h
  · rw [if_neg hf] at h
    cases hc : m.currentRow_ with
    | none => rw [hc] at h; dsimp only at h; split at h <;> cases h
    | some buf => rw [hc] at h; dsimp only at h; split at h <;> cases h

/-! ## Files, streams and the row cache -/

theorem writeAt_eq (old : List Nat) (pos : Nat) (data : List Nat)
    (h : pos + data.length ≤ old.length) :
    writeAt old pos data = old.take pos ++ data ++ old.drop (pos + data.length) := by
  unfold writeAt
  split
  · rename_i hd
    subst hd
    simp
  · have : pos - old.length = 0 := by omega
    simp [this]

theorem length_writeAt (old : List Nat) (pos : Nat) (data : List Nat)
    (h : pos + data.length ≤ old.length) :
    (writeAt old pos data).length = old.length := by
  rw [writeAt_eq old pos data h]
  simp
  omega

theorem getElem?_writeAt (old : List Nat) (pos : Nat) (data : List Nat)
    (h : pos + data.length ≤ old.length) (i : Nat) :
    (writeAt old pos data)[i]? =
      if pos ≤ i ∧ i < pos + data.length then data[i - pos]? else old[i]? := by
  rw [writeAt_eq old pos data h]
  by_cases h1 : i < pos
  · rw [if_neg (by omega), List.append_assoc, List.getElem?_append_left (by simp; omega)]
    exact List.getElem?_take_of_lt h1
  · by_cases h2 : i < pos + data.length
    · rw [if_pos (by omega), List.getElem?_append_left (by simp; omega),
        List.getElem?_append_right (by simp; omega)]
      simp
      congr 1
      omega
    · rw [if_neg (by omega), List.getElem?_append_right (by simp; omega), List.getElem?_drop]
      simp
      congr 1
      omega

theorem read_writeAt_same (old : List Nat) (pos : Nat) (data : List Nat)
    (h : pos + data.length ≤ old.length) :
    ((writeAt old pos data).drop pos).take data.length = data := by
  rw [writeAt_eq old pos data h, List.append_assoc]
  rw [List.drop_left' (by simp; omega), List.take_left]

theorem read_writeAt_other (old : List Nat) (pos : Nat) (data : List Nat)
    (h : pos + data.length ≤ old.length) (q n : Nat)
    (hd : q + n ≤ pos ∨ pos + data.length ≤ q) :
    ((writeAt old pos data).drop q).take n = (old.drop q).take n := by
  apply List.ext_getElem?
  intro i
  rw [List.getElem?_take, List.getElem?_take, List.getElem?_drop, List.getElem?_drop,
    getElem?_writeAt old pos data h]
  by_cases hi : i < n
  · rw [if_pos hi, if_pos hi, if_neg (by omega)]
  · rw [if_neg hi, if_neg hi]


theorem row_end_le (R C E r : Nat) (h : r < R) : r * C * E + C * E ≤ R * C * E := by
  calc r * C * E + C * E = (r + 1) * (C * E) := by ring
    _ ≤ R * (C * E) := Nat.mul_le_mul_right _ h
    _ = R * C * E := by ring

theorem rowOffset_eq (E : Nat) (m : Matrix) (r : Nat)
    (h : 2 * sizeofIndex + r * m.columns_ * E < streamoffLimit) :
    rowOffset E m r = 2 * sizeofIndex + r * m.columns_ * E := by
  unfold rowOffset
  apply Nat.mod_eq_of_lt
  simp only [streamoffLimit, sizeMod] at *
  omega

theorem seek_open (k p off : Nat) (h : off < streamoffLimit) :
    (FStream.mk (some k) false p).seek off = ⟨some k, false, off⟩ := by
  simp [FStream.seek, h]

theorem streamRead_open (fs : FileSystem) (k p n : Nat) (h : p + n ≤ (fs.bytes k).length) :
    streamRead fs ⟨some k, false, p⟩ n = (⟨some k, false, p + n⟩, ((fs.bytes k).drop p).take n) := by
  have hl : (((fs.bytes k).drop p).take n).length = n := by
    simp
    omega
  simp only [streamRead, hl]
  simp

/-- The second half of `loadRow`, with no row resident. -/
theorem loadRow_absent (E : Nat) (fs : FileSystem) (m : Matrix) (r k p : Nat)
    (hfd : m.fileDescriptor_ = ⟨some k, false, p⟩) (hrow : m.currentRow_ = none)
    (hr : r < m.rows_)
    (hlen : (fs.bytes k).length = 2 * sizeofIndex + m.rows_ * m.columns_ * E)
    (hlim : 2 * sizeofIndex + m.rows_ * m.columns_ * E < streamoffLimit) :
    loadRow E fs m r = .ok (fs,
      ⟨m.filename_, m.rows_, m.columns_,
        ⟨some k, false, 2 * sizeofIndex + r * m.columns_ * E + m.columns_ * E⟩,
        some (fileRow E (fs.bytes k) m.columns_ r), r⟩) := by
  rcases m with ⟨fname, R, C, fd, cr, crn⟩
  simp only at hfd hrow hr hlen hlim
  subst hfd hrow
  have hb := row_end_le R C E r hr
  have hoff : 2 * sizeofIndex + r * C * E < streamoffLimit := by omega
  have hn : (C * E) % sizeMod = C * E := by
    apply Nat.mod_eq_of_lt
    simp only [streamoffLimit, sizeMod] at *
    omega
  have hro : ∀ x, rowOffset E ⟨fname, R, C, x, none, r⟩ r = 2 * sizeofIndex + r * C * E :=
    fun x => rowOffset_eq E _ r hoff
  have hge : ¬ (r ≥ R) := by omega
  simp only [loadRow, if_neg hge, Option.isSome_none, Bool.false_eq_true, if_false, hro,
    seek_open _ _ _ hoff, hn]
  rw [streamRead_open fs k _ _ (by omega)]
  have hl : (((fs.bytes k).drop (2 * sizeofIndex + r * C * E)).take (C * E)).length = C * E := by
    simp
    omega
  simp only [hl, List.drop_replicate, Nat.sub_self, List.replicate_zero, List.append_nil]
  rfl


theorem streamWrite_open (fs : FileSystem) (k p : Nat) (data : List Nat) :
    streamWrite fs ⟨some k, false, p⟩ data =
      (⟨fs.dir, Function.update fs.bytes k (writeAt (fs.bytes k) p data), fs.nextIno, fs.creatable⟩,
       ⟨some k, false, p + data.length⟩) := by
  simp [streamWrite]

/-- The method `flush` on a healthy matrix writes the buffer at the row offset. -/
theorem flush_resident (E : Nat) (fs : FileSystem) (m : Matrix) (k p : Nat) (buf : List Nat)
    (hfd : m.fileDescriptor_ = ⟨some k, false, p⟩) (hrow : m.currentRow_ = some buf)
    (hbuf : buf.length = m.columns_ * E)
    (hcur : m.currentRowNumber_ < m.rows_)
    (hlim : 2 * sizeofIndex + m.rows_ * m.columns_ * E < streamoffLimit) :
    flush E fs m = .ok
      (⟨fs.dir, Function.update fs.bytes k
          (writeAt (fs.bytes k) (2 * sizeofIndex + m.currentRowNumber_ * m.columns_ * E) buf),
        fs.nextIno, fs.creatable⟩,
       ⟨m.filename_, m.rows_, m.columns_,
        ⟨some k, false, 2 * sizeofIndex + m.currentRowNumber_ * m.columns_ * E + m.columns_ * E⟩,
        some buf, m.currentRowNumber_⟩) := by
  rcases m with ⟨fname, R, C, fd, cr, crn⟩
  simp only at hfd hrow hbuf hcur hlim
  subst hfd hrow
  have hb := row_end_le R C E crn hcur
  have hoff : 2 * sizeofIndex + crn * C * E < streamoffLimit := by omega
  have hn : (E * C) % sizeMod = C * E := by
    rw [Nat.mul_comm E C]
    apply Nat.mod_eq_of_lt
    simp only [streamoffLimit, sizeMod] at *
    omega
  have hro : rowOffset E ⟨fname, R, C, ⟨some k, false, p⟩, some buf, crn⟩ crn
      = 2 * sizeofIndex + crn * C * E := rowOffset_eq E _ crn hoff
  have hlt : ¬ (buf.length < C * E) := by omega
  have htake : buf.take (C * E) = buf := by
    rw [← hbuf]
    exact List.take_length _
  simp only [flush, hro, seek_open _ _ _ hoff, hn, Bool.false_eq_true, if_false, if_neg hlt,
    htake, streamWrite_open, hbuf, Nat.lt_irrefl]

/-- The method `loadRow` on a healthy matrix: the resident row is written back at
its offset, then the requested row is read from the file. -/
theorem loadRow_resident (E : Nat) (fs : FileSystem) (m : Matrix) (r k p : Nat)
    (buf : List Nat)
    (hfd : m.fileDescriptor_ = ⟨some k, false, p⟩) (hrow : m.currentRow_ = some buf)
    (hbuf : buf.length = m.columns_ * E)
    (hcur : m.currentRowNumber_ < m.rows_)
    (hr : r < m.rows_)
    (hlen : (fs.bytes k).length = 2 * sizeofIndex + m.rows_ * m.columns_ * E)
    (hlim : 2 * sizeofIndex + m.rows_ * m.columns_ * E < streamoffLimit) :
    loadRow E fs m r = .ok
      (⟨fs.dir, Function.update fs.bytes k
          (writeAt (fs.bytes k) (2 * sizeofIndex + m.currentRowNumber_ * m.columns_ * E) buf),
        fs.nextIno, fs.creatable⟩,
       ⟨m.filename_, m.rows_, m.columns_,
        ⟨some k, false, 2 * sizeofIndex + r * m.columns_ * E + m.columns_ * E⟩,
        some (fileRow E
          (writeAt (fs.bytes k) (2 * sizeofIndex + m.currentRowNumber_ * m.columns_ * E) buf)
          m.columns_ r), r⟩) := by
  have hb := row_end_le m.rows_ m.columns_ E m.currentRowNumber_ hcur
  have hge : ¬ (r ≥ m.rows_) := by omega
  have hfl := flush_resident E fs m k p buf hfd hrow hbuf hcur hlim
  have key := loadRow_absent E
    ⟨fs.dir, Function.update fs.bytes k
      (writeAt (fs.bytes k) (2 * sizeofIndex + m.currentRowNumber_ * m.columns_ * E) buf),
      fs.nextIno, fs.creatable⟩
    ⟨m.filename_, m.rows_, m.columns_,
      ⟨some k, false, 2 * sizeofIndex + m.currentRowNumber_ * m.columns_ * E + m.columns_ * E⟩,
      none, m.currentRowNumber_⟩ r k _ rfl rfl hr
    (by simp only [Function.update_same]; rw [length_writeAt _ _ _ (by omega)]; exact hlen)
    hlim
  simp only [Function.update_same] at key
  rw [← key]
  simp only [loadRow, if_neg hge, hrow, Option.isSome_some, if_true, hfl, Option.isSome_none,
    Bool.false_eq_true, if_false]
  rfl


theorem toBytes_length (n v : Nat) : (toBytes n v).length = n := by
  induction n generalizing v with
  | zero => rfl
  | succ n ih => simp [toBytes, ih]

theorem zeroFill_eq (E n : Nat) : zeroFill E n = List.replicate (n * E) 0 := by
  induction n with
  | zero => simp [zeroFill]
  | succ n ih =>
    rw [zeroFill, ih, Nat.succ_mul, Nat.add_comm (n * E) E, List.replicate_add]

theorem writeAt_nil (data : List Nat) : writeAt [] 0 data = data := by
  unfold writeAt
  split
  · rename_i h; exact h.symm
  · simp

theorem canOpenOut_ne_empty (fs : FileSystem) (path : String)
    (h : fs.canOpenOut path = true) : path ≠ "" := by
  simp only [FileSystem.canOpenOut, Bool.and_eq_true, bne_iff_ne, ne_eq] at h
  exact h.1

theorem openTrunc_spec (fs : FileSystem) (path : String) (hp : fs.canOpenOut path = true) :
    ∃ k, (openTrunc fs path).2 = ⟨some k, false, 0⟩ ∧ (openTrunc fs path).1.dir path = some k ∧
      (openTrunc fs path).1.bytes k = [] := by
  unfold openTrunc
  rw [if_pos hp]
  cases h : fs.dir path with
  | none => exact ⟨fs.nextIno, rfl, by simp, by simp⟩
  | some k => exact ⟨k, rfl, by simpa using h, by simp⟩

/-- A constructor call that returns normally had an element count (in `size_t`)
within the range of its `int` loop counter. -/
theorem create_defined (E : Nat) (fs : FileSystem) (R C : Nat) (name : String)
    (p : FileSystem × Matrix) (h : create E fs R C name = .ok p) :
    (R * C) % sizeMod ≤ intMax := by
  by_contra hn
  have hgt : (R * C) % sizeMod > intMax := by omega
  simp only [create, if_pos hgt] at h
  cases h

/-- The file image the constructor with dimensions writes. -/
theorem create_spec (E : Nat) (fs : FileSystem) (R C : Nat) (name : String)
    (hR : 1 ≤ R) (hpath : fs.canOpenOut name = true)
    (hN : (R * C) % sizeMod ≤ intMax) (hNE : (R * C) % sizeMod * E = R * C * E)
    (hsz : 2 * sizeofIndex + R * C * E < streamoffLimit) :
    ∃ fs1 k p, create E fs R C name =
        .ok (fs1, ⟨name, R, C, ⟨some k, false, p⟩, some (List.replicate (C * E) 0), 0⟩) ∧
      fs1.dir name = some k ∧
      fs1.bytes k = toBytes sizeofIndex R ++ toBytes sizeofIndex C
        ++ List.replicate (R * C * E) 0 := by
  have hCE := row_end_le R C E 0 hR
  have hn : ¬ ((R * C) % sizeMod > intMax) := by omega
  have hne := canOpenOut_ne_empty fs name hpath
  obtain ⟨k, h2, hdir, hb⟩ := openTrunc_spec fs name hpath
  unfold create
  generalize openTrunc fs name = o at h2 hdir hb ⊢
  rcases o with ⟨fs0, s0⟩
  simp only at h2 hdir hb
  subst h2
  have hopen : openRW ⟨fs0.dir, Function.update fs0.bytes k (writeAt (fs0.bytes k) 0
      (toBytes sizeofIndex R ++ toBytes sizeofIndex C ++ List.replicate (R * C * E) 0)),
      fs0.nextIno, fs0.creatable⟩ name = ⟨some k, false, 0⟩ := by
    simp [openRW, hdir, hne]
  refine ⟨⟨fs0.dir, Function.update fs0.bytes k
      (toBytes sizeofIndex R ++ toBytes sizeofIndex C ++ List.replicate (R * C * E) 0),
      fs0.nextIno, fs0.creatable⟩, k, 2 * sizeofIndex + 0 * C * E + C * E, ?_, hdir, by simp⟩
  simp only [if_neg hn, streamWrite_open, zeroFill_eq, hNE, hopen]
  rw [loadRow_absent E _ _ 0 k 0 rfl rfl (by simpa using hR)
    (by simp [hb, writeAt_nil, toBytes_length]; omega) hsz]
  simp only [hb, writeAt_nil, Function.update_same, fileRow]
  have hz : List.take (C * E) (List.drop (2 * sizeofIndex + 0 * C * E)
      (toBytes sizeofIndex R ++ toBytes sizeofIndex C ++ List.replicate (R * C * E) 0))
      = List.replicate (C * E) 0 := by
    rw [List.drop_left' (by simp [toBytes_length]; omega), List.take_replicate]
    congr 1
    omega
  rw [hz]

/-- Within the file-size bound the element count does not wrap in a way that
changes the number of bytes written. -/
theorem count_bytes_eq (E R C : Nat)
    (hsz : 2 * sizeofIndex + R * C * E < streamoffLimit) :
    (R * C) % sizeMod * E = R * C * E := by
  rcases Nat.eq_zero_or_pos E with h0 | hpos
  · subst h0
    simp
  · have hle : R * C ≤ R * C * E := Nat.le_mul_of_pos_right _ hpos
    rw [Nat.mod_eq_of_lt]
    simp only [streamoffLimit, sizeMod, sizeofIndex] at *
    omega

/-! ## Healthy states -/

theorem fileRow_length (E : Nat) (image : List Nat) (R C r : Nat)
    (hlen : image.length = 2 * sizeofIndex + R * C * E) (hr : r < R) :
    (fileRow E image C r).length = C * E := by
  have hb := row_end_le R C E r hr
  simp [fileRow]
  omega

theorem fileRow_writeAt (E : Nat) (image : List Nat) (R C cur : Nat) (buf : List Nat) (r : Nat)
    (hlen : image.length = 2 * sizeofIndex + R * C * E) (hbuf : buf.length = C * E)
    (hcur : cur < R) :
    fileRow E (writeAt image (2 * sizeofIndex + cur * C * E) buf) C r =
      if r = cur then buf else fileRow E image C r := by
  have hb := row_end_le R C E cur hcur
  have hfit : 2 * sizeofIndex + cur * C * E + buf.length ≤ image.length := by omega
  by_cases h : r = cur
  · subst h
    rw [if_pos rfl]
    unfold fileRow
    rw [← hbuf]
    exact read_writeAt_same _ _ _ hfit
  · rw [if_neg h]
    unfold fileRow
    apply read_writeAt_other _ _ _ hfit
    rcases Nat.lt_or_gt_of_ne h with h1 | h1
    · left
      have := row_end_le cur C E r h1
      omega
    · right
      have := row_end_le r C E cur h1
      omega

theorem logicalRow_eq (E : Nat) (fs : FileSystem) (m : Matrix) (k : Nat) (buf : List Nat)
    (r : Nat) (hk : m.fileDescriptor_.ino = some k) (hrow : m.currentRow_ = some buf) :
    logicalRow E fs m r =
      if r = m.currentRowNumber_ then buf else fileRow E (fs.bytes k) m.columns_ r := by
  simp [logicalRow, hk, hrow]

/-- On a healthy matrix `loadRow` returns normally in a healthy state with the
requested row resident, every row reads as before, and the file holds every row
as the program saw it before the call. -/
theorem loadRow_wellFormed (E : Nat) (fs : FileSystem) (m : Matrix) (r : Nat)
    (hw : WellFormed E fs m) (hr : r < m.rows_) :
    ∃ fs1 m1 k, loadRow E fs m r = .ok (fs1, m1) ∧ WellFormed E fs1 m1 ∧
      m1.rows_ = m.rows_ ∧ m1.columns_ = m.columns_ ∧ m1.filename_ = m.filename_ ∧
      m1.currentRowNumber_ = r ∧ m1.currentRow_ = some (logicalRow E fs m r) ∧
      m.fileDescriptor_.ino = some k ∧ m1.fileDescriptor_.ino = some k ∧
      fs1.dir = fs.dir ∧
      (∀ r1, r1 < m.rows_ → fileRow E (fs1.bytes k) m.columns_ r1 = logicalRow E fs m r1) ∧
      (∀ r1, r1 < m.rows_ → logicalRow E fs1 m1 r1 = logicalRow E fs m r1) := by
  obtain ⟨k, buf, hk, hf, hlen, hlim, hrow, hbuf, hcur⟩ := hw
  have hfd : m.fileDescriptor_ = ⟨some k, false, m.fileDescriptor_.pos⟩ := by
    rcases hm : m.fileDescriptor_ with ⟨i, f, p⟩
    rw [hm] at hk hf
    simp only at hk hf
    subst hk hf
    rfl
  have hrows : ∀ r1, r1 < m.rows_ →
      fileRow E (writeAt (fs.bytes k)
        (2 * sizeofIndex + m.currentRowNumber_ * m.columns_ * E) buf) m.columns_ r1
        = logicalRow E fs m r1 := by
    intro r1 _
    rw [fileRow_writeAt E _ m.rows_ m.columns_ _ buf r1 hlen hbuf hcur,
      logicalRow_eq E fs m k buf r1 hk hrow]
  have hb := row_end_le m.rows_ m.columns_ E m.currentRowNumber_ hcur
  have hlenW : (writeAt (fs.bytes k)
      (2 * sizeofIndex + m.currentRowNumber_ * m.columns_ * E) buf).length
      = 2 * sizeofIndex + m.rows_ * m.columns_ * E := by
    rw [length_writeAt _ _ _ (by omega)]
    exact hlen
  refine ⟨_, _, k, loadRow_resident E fs m r k _ buf hfd hrow hbuf hcur hr hlen hlim,
    ?_, rfl, rfl, rfl, rfl, ?_, hk, rfl, rfl, ?_, ?_⟩
  · refine ⟨k, _, rfl, rfl, ?_, hlim, rfl, ?_, hr⟩
    · simp only [Function.update_same]
      exact hlenW
    · exact fileRow_length E _ m.rows_ m.columns_ r hlenW hr
  · simp only
    rw [hrows r hr]
  · intro r1 h1
    simp only [Function.update_same]
    exact hrows r1 h1
  · intro r1 h1
    rw [logicalRow_eq E _ _ k _ r1 rfl rfl]
    simp only [Function.update_same]
    rw [← hrows r1 h1]
    split
    · rename_i h; rw [h]
    · rfl


theorem create_wellFormed (E : Nat) (fs : FileSystem) (R C : Nat) (name : String)
    (hR : 1 ≤ R) (hpath : fs.canOpenOut name = true) (hN : (R * C) % sizeMod ≤ intMax)
    (hsz : 2 * sizeofIndex + R * C * E < streamoffLimit) :
    ∃ fs1 m1 k, create E fs R C name = .ok (fs1, m1) ∧ WellFormed E fs1 m1 ∧
      m1.rows_ = R ∧ m1.columns_ = C ∧ m1.filename_ = name ∧ m1.currentRowNumber_ = 0 ∧
      m1.currentRow_ = some (List.replicate (C * E) 0) ∧
      m1.fileDescriptor_.ino = some k ∧ fs1.dir name = some k ∧
      fs1.bytes k = toBytes sizeofIndex R ++ toBytes sizeofIndex C
        ++ List.replicate (R * C * E) 0 := by
  obtain ⟨fs1, k, p, hc, hdir, hb⟩ :=
    create_spec E fs R C name hR hpath hN (count_bytes_eq E R C hsz) hsz
  refine ⟨fs1, _, k, hc, ⟨k, _, rfl, rfl, ?_, hsz, rfl, by simp, by simpa using hR⟩,
    rfl, rfl, rfl, rfl, rfl, rfl, hdir, hb⟩
  simp only [hb, List.length_append, toBytes_length, List.length_replicate]
  omega

theorem store_wellFormed (E : Nat) (fs : FileSystem) (m : Matrix) (raw : List Nat)
    (hw : WellFormed E fs m) (hraw : raw.length = m.columns_ * E) :
    WellFormed E fs (m.store raw) := by
  obtain ⟨k, buf, hk, hf, hlen, hlim, -, -, hcur⟩ := hw
  exact ⟨k, raw, hk, hf, hlen, hlim, rfl, hraw, hcur⟩

theorem logicalRow_store (E : Nat) (fs : FileSystem) (m : Matrix) (raw : List Nat) (r : Nat)
    (hw : WellFormed E fs m) :
    logicalRow E fs (m.store raw) r =
      if r = m.currentRowNumber_ then raw else logicalRow E fs m r := by
  obtain ⟨k, buf, hk, -, -, -, hrow, -, -⟩ := hw
  rw [logicalRow_eq E fs (m.store raw) k raw r hk rfl, logicalRow_eq E fs m k buf r hk hrow]
  simp only [Matrix.store]
  split <;> rfl

theorem ofBytes_toBytes (n v : Nat) (h : v < 256 ^ n) : ofBytes (toBytes n v) = v := by
  induction n generalizing v with
  | zero =>
    simp at h
    simp [toBytes, ofBytes, h]
  | succ n ih =>
    have hdiv : v / 256 < 256 ^ n := by
      rw [Nat.div_lt_iff_lt_mul (by norm_num)]
      rw [pow_succ] at h
      exact h
    simp only [toBytes, ofBytes, ih _ hdiv]
    omega

theorem encodeRow_length (E : Nat) (v : List Nat) : (encodeRow E v).length = v.length * E := by
  induction v with
  | nil => simp [encodeRow]
  | cons x xs ih =>
    simp only [encodeRow, List.length_append, toBytes_length, ih, List.length_cons]
    ring

theorem rowElements_encodeRow (E : Nat) (v : List Nat) (h : ∀ x ∈ v, x < 256 ^ E) :
    rowElements E v.length (encodeRow E v) = v := by
  induction v with
  | nil => rfl
  | cons x xs ih =>
    have hx := h x (by simp)
    have hxs : ∀ y ∈ xs, y < 256 ^ E := fun y hy => h y (by simp [hy])
    simp only [List.length_cons, rowElements, encodeRow]
    rw [List.take_left' (toBytes_length E x), List.drop_left' (toBytes_length E x),
      ofBytes_toBytes E x hx, ih hxs]

/-! ## Sibling naming (C6) -/

/-- C6 (code at the failing input): for the path `matrix`, which has no dot,
`setFilename` with the suffix `_copy` leaves the name `matrix`; the suffix is
not appended, so the derived name does not differ from the path. -/
theorem setFilename_without_dot_keeps_name :
    (setFilename (bind "") "matrix" "_copy").filename_ = "matrix" ∧
    (setFilename (bind "") "matrix" "_copy").filename_ ≠ "matrix_copy" ∧
    (setFilename (bind "") "dir/matrix100x100.matrix" "_copy").filename_
      = "dir/matrix100x100_copy.matrix" := by
  decide

/-! ## Row-index bounds (C2) -/

/-- C2: `loadRow` (and so `operator[]`) throws `out_of_range` exactly when the
index is at least `rows_`; the state at the throw is the state before the call
(no seek, read or write has happened); with `rows_ ≥ 1` the access to row
`rows_ - 1` does not throw and, when the resident buffer is absent or holds a
full row, returns normally; every access on a bind-only matrix throws. -/
theorem loadRow_outOfRange_iff (E : Nat) (fs : FileSystem) (m : Matrix) (r : Nat) :
    ((∃ fs1 m1, index E fs m r = .outOfRange fs1 m1) ↔ r ≥ m.rows_) ∧
    (∀ fs1 m1, index E fs m r = .outOfRange fs1 m1 → fs1 = fs ∧ m1 = m) ∧
    (1 ≤ m.rows_ → (∀ fs1 m1, index E fs m (m.rows_ - 1) ≠ .outOfRange fs1 m1) ∧
      ((∀ buf, m.currentRow_ = some buf → (E * m.columns_) % sizeMod ≤ buf.length) →
        ∃ p, index E fs m (m.rows_ - 1) = .ok p)) ∧
    (∀ name, index E fs (bind name) r = .outOfRange fs (bind name)) := by
  have key : ∀ i, i < m.rows_ → ∀ fs1 m1, loadRow E fs m i ≠ .outOfRange fs1 m1 := by
    intro i hi fs1 m1 h
    unfold loadRow at h
    rw [if_neg (by omega)] at h
    split at h
    · cases h
    · rename_i fs2 m2 heq
      split at heq
      · exact flush_ne_outOfRange _ _ _ _ _ heq
      · cases heq
    · cases h
  refine ⟨⟨?_, ?_⟩, ?_, ?_, ?_⟩
  · rintro ⟨fs1, m1, h⟩
    by_contra hlt
    exact key r (by omega) fs1 m1 h
  · intro h
    exact ⟨fs, m, by simp [index, loadRow, h]⟩
  · intro fs1 m1 h
    by_cases hr : r ≥ m.rows_
    · simp only [index, loadRow, if_pos hr] at h
      cases h
      exact ⟨rfl, rfl⟩
    · exact absurd h (key r (by omega) fs1 m1)
  · intro h1
    refine ⟨fun fs1 m1 => key _ (by omega) fs1 m1, ?_⟩
    intro hbuf
    have hlt : ¬ (m.rows_ - 1 ≥ m.rows_) := by omega
    simp only [index, loadRow, if_neg hlt]
    cases hc : m.currentRow_ with
    | none => exact ⟨_, rfl⟩
    | some buf =>
      have hb := hbuf buf hc
      simp only [Option.isSome_some, if_true, flush, hc]
      by_cases hf : (m.fileDescriptor_.seek (rowOffset E m m.currentRowNumber_)).failed = true
      · rw [if_pos hf]; exact ⟨_, rfl⟩
      · rw [if_neg hf, if_neg (by omega)]; exact ⟨_, rfl⟩
  · intro name
    simp [index, loadRow, bind]

/-- C2 (witness): on a fresh 2-by-1 matrix row 1 is served and row 2 throws. -/
theorem loadRow_outOfRange_iff_witness :
    (∃ fs m, create 1 FileSystem.empty 2 1 "a.matrix" = .ok (fs, m) ∧
      (∃ p, index 1 fs m (m.rows_ - 1) = .ok p) ∧
      index 1 fs m 2 = .outOfRange fs m) :=
  ⟨_, _, rfl,
    ((loadRow_outOfRange_iff 1 _ _ 0).2.2.1 (by decide)).2 (by decide),
    rfl⟩

/-! ## Destruction (C7) -/

/-- C7 (code at the failing input): a fresh 1-by-1 matrix of one-byte elements
gets the value 5 stored in its resident row 0 and is destroyed. The destructor
closes the stream and releases the buffer without writing it: the byte of the
file at `rowOffset 0 = 16` is still 0, not 5. The method `flush`, which
`loadRow` calls before it evicts a resident row, would have written the 5. -/
theorem destroy_drops_unflushed_row :
    ∃ fs m, create 1 FileSystem.empty 1 1 "a.matrix" = .ok (fs, m) ∧
      m.currentRowNumber_ = 0 ∧ (m.store [5]).currentRow_ = some [5] ∧
      rowOffset 1 (m.store [5]) 0 = 16 ∧
      ((destroy fs (m.store [5])).1.fileAt "a.matrix").map
          (fun image => (image.drop 16).take 1) = some [0] ∧
      (destroy fs (m.store [5])).2.fileDescriptor_.ino = none ∧
      (destroy fs (m.store [5])).2.currentRow_ = none ∧
      (∃ fs1 m1, flush 1 fs (m.store [5]) = .ok (fs1, m1) ∧
        (fs1.fileAt "a.matrix").map (fun image => (image.drop 16).take 1) = some [5]) :=
  ⟨_, _, rfl, by decide, by decide, by decide, by decide, by decide, by decide,
    ⟨_, _, rfl, by decide⟩⟩

/-! ## Move (C5) -/

/-- C5 (code at the failing input): a fresh 1-by-1 matrix at `a.matrix` is
moved from. The file arrives at `a_move.matrix` with its bytes and the new
object takes the dimensions and the row, but the source keeps its stream open
on the file (inode 0) instead of releasing it, and the stream of the new object,
opened before the rename, is not open at all. -/
theorem moveConstruct_keeps_source_handle :
    ∃ fs m, create 1 FileSystem.empty 1 1 "a.matrix" = .ok (fs, m) ∧
      (moveConstruct fs m).1.fileAt "a_move.matrix" = fs.fileAt "a.matrix" ∧
      (moveConstruct fs m).1.fileAt "a.matrix" = none ∧
      (moveConstruct fs m).2.1.rows = 1 ∧ (moveConstruct fs m).2.1.columns = 1 ∧
      (moveConstruct fs m).2.1.currentRow_ = m.currentRow_ ∧
      (moveConstruct fs m).2.2.rows = 0 ∧ (moveConstruct fs m).2.2.columns = 0 ∧
      (moveConstruct fs m).2.2.currentRow_ = none ∧
      (moveConstruct fs m).2.2.fileDescriptor_.ino = some 0 ∧
      (moveConstruct fs m).2.2.fileDescriptor_ ≠ (bind "a.matrix").fileDescriptor_ ∧
      (moveConstruct fs m).2.1.fileDescriptor_.ino = none :=
  ⟨_, _, rfl, by decide, by decide, by decide, by decide, by decide, by decide, by decide,
    by decide, by decide, by decide, by decide⟩

/-! ## Copy (C4, C10) -/

/-- C4 (code at the failing input): a fresh 1-by-1 matrix at the path `m`,
which has no dot, is copied. The copy is bound to the same path `m`, creating
its file truncates the source file, and both end up empty: the 17 bytes of the
source file are gone. -/
theorem copyConstruct_without_dot_truncates_source :
    ∃ fs m fs1 c m1, create 1 FileSystem.empty 1 1 "m" = .ok (fs, m) ∧
      fs.fileAt "m" = some [1, 0, 0, 0, 0, 0, 0, 0, 1, 0, 0, 0, 0, 0, 0, 0, 0] ∧
      copyConstruct 1 fs m = .ok (fs1, c, m1) ∧
      m1.filename_ = "m" ∧ c.filename_ = "m" ∧
      fs1.fileAt "m" = some [] ∧ fs1.fileAt "m_copy" = none :=
  ⟨_, _, _, _, _, rfl, by decide, rfl, by decide, by decide, by decide, by decide⟩

/-- C10 (code at the failing input): a fresh 1-by-2 matrix of one-byte elements
is copied. The copy has `columns_ = 2` and resident row 0, but its buffer holds
`rows_ = 1` element, while the source buffer holds 2; flushing the copy reads
beyond its buffer. -/
theorem copyConstruct_buffer_has_rows_elements :
    ∃ fs m fs1 c m1, create 1 FileSystem.empty 1 2 "a.matrix" = .ok (fs, m) ∧
      m.currentRow_ = some [0, 0] ∧
      copyConstruct 1 fs m = .ok (fs1, c, m1) ∧
      c.columns = 2 ∧ c.currentRowNumber_ = 0 ∧
      c.currentRow_ = some [0] ∧
      c.currentRow_ ≠ m.currentRow_ ∧
      (∀ p, flush 1 fs1 c ≠ .ok p) :=
  ⟨_, _, _, _, _, rfl, by decide, rfl, by decide, by decide, by decide, by decide,
    fun p h => by cases h⟩

/-! ## Fresh creation (C3) -/

/-- The fill loop of the constructor counts with an `int`: for `R = 2 ^ 32` rows
and `C = 1` column of one-byte elements the element count does not wrap in
`size_t`, the path can be created and the file size is a valid stream offset,
but the counter overflows past `INT_MAX` and the behaviour is undefined. -/
theorem create_int_counter_overflows :
    create 1 FileSystem.empty (2 ^ 32) 1 "a.matrix" = .undefined ∧
    (2 ^ 32 * 1) % sizeMod = 2 ^ 32 ∧ intMax < 2 ^ 32 ∧
    FileSystem.empty.canOpenOut "a.matrix" = true ∧
    2 * sizeofIndex + 2 ^ 32 * 1 * 1 < streamoffLimit :=
  ⟨rfl, by decide, by decide, by decide, by decide⟩

theorem fileRow_zero_image (E : Nat) (hdr : List Nat) (R C r : Nat)
    (hh : hdr.length = 2 * sizeofIndex) (hr : r < R) :
    fileRow E (hdr ++ List.replicate (R * C * E) 0) C r = List.replicate (C * E) 0 := by
  have hb := row_end_le R C E r hr
  unfold fileRow
  rw [← hh, List.drop_append, List.drop_replicate, List.take_replicate]
  congr 1
  omega

/-- C1 (counterexample): two created matrices of one-byte elements on which the
values stored into row 0 are gone after row 1 and then row 0 are accessed.
With `R = 2 ^ 63`, `C = 2` the element count wraps to 0 in `size_t`, the file
holds no element and the first read fails the stream. With `R = C = 2` at the
empty path no file can be opened and the stream is failed from the start. In
both cases every later seek, write and read does nothing. -/
theorem index_round_trip_fails_on_failed_stream :
    (∃ fs m fs1 m1 fs2 m2 fs3 m3,
      create 1 FileSystem.empty (2 ^ 63) 2 "a.matrix" = .ok (fs, m) ∧
      index 1 fs m 0 = .ok (fs1, m1) ∧
      index 1 fs1 (m1.store (encodeRow 1 [7, 9])) 1 = .ok (fs2, m2) ∧
      index 1 fs2 m2 0 = .ok (fs3, m3) ∧
      m3.currentRow_.map (rowElements 1 2) = some [0, 0]) ∧
    (∃ fs m fs1 m1 fs2 m2 fs3 m3,
      create 1 FileSystem.empty 2 2 "" = .ok (fs, m) ∧
      fs.fileAt "" = none ∧
      index 1 fs m 0 = .ok (fs1, m1) ∧
      index 1 fs1 (m1.store (encodeRow 1 [7, 9])) 1 = .ok (fs2, m2) ∧
      index 1 fs2 m2 0 = .ok (fs3, m3) ∧
      m3.currentRow_.map (rowElements 1 2) = some [0, 0]) :=
  ⟨⟨_, _, _, _, _, _, _, _, rfl, rfl, rfl, rfl, by decide⟩,
   ⟨_, _, _, _, _, _, _, _, rfl, by decide, rfl, rfl, rfl, by decide⟩⟩

/-- C1 (amended): let the constructor have created a matrix with dimensions
`(R, C)` at a path that can be opened for writing, with a file size
`2 * I + R * C * E` that is a valid stream offset. For all rows `i, j < R` with
`j ≠ i` and every list `v` of `C` element values: `operator[](i)` makes row `i`
resident; after `v` is stored into it, `operator[](j)` writes `v` to row `i` of
the file and makes row `j` resident, which is still all zero; `operator[](i)`
then makes row `i` resident again and returns a row whose `C` elements are
exactly `v`. -/
theorem index_write_back_round_trip (E : Nat) (fs : FileSystem) (R C : Nat) (name : String)
    (i j : Nat) (v : List Nat) (fs0 : FileSystem) (m0 : Matrix)
    (hcreate : create E fs R C name = .ok (fs0, m0))
    (hpath : fs.canOpenOut name = true)
    (hsz : 2 * sizeofIndex + R * C * E < streamoffLimit)
    (hi : i < R) (hj : j < R) (hij : j ≠ i)
    (hv : v.length = C) (hval : ∀ x ∈ v, x < 256 ^ E) :
    ∃ fs1 m1 fs2 m2 fs3 m3 k,
      index E fs0 m0 i = .ok (fs1, m1) ∧ m1.currentRowNumber_ = i ∧
      index E fs1 (m1.store (encodeRow E v)) j = .ok (fs2, m2) ∧
      m2.currentRowNumber_ = j ∧
      m2.currentRow_ = some (List.replicate (C * E) 0) ∧
      fs2.dir name = some k ∧
      fileRow E (fs2.bytes k) C i = encodeRow E v ∧
      index E fs2 m2 i = .ok (fs3, m3) ∧ m3.currentRowNumber_ = i ∧
      m3.currentRow_ = some (encodeRow E v) ∧
      m3.currentRow_.map (rowElements E C) = some v := by
  have hN := create_defined E fs R C name _ hcreate
  obtain ⟨fs0a, m0a, k, h0, w0, r0, c0, -, n0, b0, k0, hdir, hb⟩ :=
    create_wellFormed E fs R C name (by omega) hpath hN hsz
  rw [hcreate] at h0
  injection h0 with h0
  injection h0 with hfs hm
  subst hfs hm
  have hzero : ∀ r, r < R → logicalRow E fs0 m0 r = List.replicate (C * E) 0 := by
    intro r hr
    rw [logicalRow_eq E fs0 m0 k _ r k0 b0, c0, hb]
    rw [fileRow_zero_image E _ R C r (by simp [toBytes_length, sizeofIndex]) hr]
    simp
  obtain ⟨fs1, m1, k1, h1, w1, r1, c1, -, n1, -, k1a, k1b, d1, -, l1⟩ :=
    loadRow_wellFormed E fs0 m0 i w0 (by omega)
  rw [k0] at k1a
  cases k1a
  have hlen : (encodeRow E v).length = m1.columns_ * E := by
    rw [encodeRow_length, hv, c1, c0]
  have w1s := store_wellFormed E fs1 m1 (encodeRow E v) w1 hlen
  obtain ⟨fs2, m2, k2, h2, w2, r2, c2, -, n2, b2, k2a, -, d2, f2, l2⟩ :=
    loadRow_wellFormed E fs1 (m1.store (encodeRow E v)) j w1s
      (by simp only [Matrix.store]; omega)
  replace k2a : m1.fileDescriptor_.ino = some k2 := k2a
  rw [k1b] at k2a
  cases k2a
  replace r2 : m2.rows_ = m1.rows_ := r2
  replace c2 : m2.columns_ = m1.columns_ := c2
  replace d2 : fs2.dir = fs1.dir := d2
  have hsi := logicalRow_store E fs1 m1 (encodeRow E v) i w1
  have hsj := logicalRow_store E fs1 m1 (encodeRow E v) j w1
  rw [n1, if_pos rfl] at hsi
  rw [n1, if_neg hij, l1 j (by omega), hzero j hj] at hsj
  obtain ⟨fs3, m3, -, h3, -, -, -, -, n3, b3, -, -, -, -, -⟩ :=
    loadRow_wellFormed E fs2 m2 i w2 (by omega)
  have hfin : m3.currentRow_ = some (encodeRow E v) := by
    rw [b3, l2 i (by simp only [Matrix.store]; omega), hsi]
  refine ⟨fs1, m1, fs2, m2, fs3, m3, k, h1, n1, h2, n2, ?_, ?_, ?_, h3, n3, hfin, ?_⟩
  · rw [b2, hsj]
  · rw [d2, d1, hdir]
  · have := f2 i (by simp only [Matrix.store]; omega)
    replace this : fileRow E (fs2.bytes k) m1.columns_ i
        = logicalRow E fs1 (m1.store (encodeRow E v)) i := this
    rw [hsi, c1, c0] at this
    exact this
  · rw [hfin, Option.map_some', ← hv, rowElements_encodeRow E v hval]

/-- C1 (witness): rows 1 and 2 of a 3-by-2 matrix of one-byte elements, values 7, 9. -/
theorem index_write_back_round_trip_witness :
    ∃ fs0 m0, create 1 FileSystem.empty 3 2 "a.matrix" = .ok (fs0, m0) ∧
    ∃ fs1 m1 fs2 m2 fs3 m3 k,
      index 1 fs0 m0 1 = .ok (fs1, m1) ∧ m1.currentRowNumber_ = 1 ∧
      index 1 fs1 (m1.store (encodeRow 1 [7, 9])) 2 = .ok (fs2, m2) ∧
      m2.currentRowNumber_ = 2 ∧
      m2.currentRow_ = some (List.replicate (2 * 1) 0) ∧
      fs2.dir "a.matrix" = some k ∧
      fileRow 1 (fs2.bytes k) 2 1 = encodeRow 1 [7, 9] ∧
      index 1 fs2 m2 1 = .ok (fs3, m3) ∧ m3.currentRowNumber_ = 1 ∧
      m3.currentRow_ = some (encodeRow 1 [7, 9]) ∧
      m3.currentRow_.map (rowElements 1 2) = some [7, 9] := by
  refine ⟨_, _, rfl, ?_⟩
  exact index_write_back_round_trip 1 FileSystem.empty 3 2 "a.matrix" 1 2 [7, 9] _ _
    (by rfl) (by decide) (by decide) (by decide) (by decide) (by decide) (by rfl) (by decide)

/-! ## Equality (C8) -/

theorem equalRange_self (l : List Nat) : equalRange l l = some true := by
  induction l with
  | nil => rfl
  | cons x xs ih => simp [equalRange, ih]

theorem equalRange_same_length (l1 l2 : List Nat) (h : l1.length = l2.length) :
    equalRange l1 l2 = some (decide (l1 = l2)) := by
  induction l1 generalizing l2 with
  | nil =>
    cases l2 with
    | nil => rfl
    | cons y ys => simp at h
  | cons x xs ih =>
    cases l2 with
    | nil => simp at h
    | cons y ys =>
      simp only [List.length_cons, Nat.add_right_cancel_iff] at h
      by_cases hxy : x = y
      · subst hxy
        simp [equalRange, ih ys h]
      · simp [equalRange, hxy]

/-- C8 (counterexample): two bind-only matrices on the files `x` (holding the
byte 1) and `y` (holding the byte 2) have equal dimensions (0, 0) and compare
equal, although their backing files differ: neither stream was ever opened, so
the comparison walks an empty range. -/
theorem operatorEq_of_unopened_files :
    operatorEq twoFiles (bind "x") (bind "y") = .ok true ∧
    (bind "x").rows = (bind "y").rows ∧ (bind "x").columns = (bind "y").columns ∧
    twoFiles.fileAt (bind "x").filename_ = some [1] ∧
    twoFiles.fileAt (bind "y").filename_ = some [2] :=
  ⟨rfl, rfl, rfl, by decide, by decide⟩

/-- C8 (amended): `a == b` is false whenever the dimensions differ; with equal
dimensions, when both streams are open and have not failed and the two files
have the same length, it is true exactly when the files are byte-for-byte
identical; every matrix compares equal to itself; `a != b` is the negation of
`a == b`. -/
theorem operatorEq_spec (fs : FileSystem) (a b : Matrix) :
    ((a.rows_ ≠ b.rows_ ∨ a.columns_ ≠ b.columns_) → operatorEq fs a b = .ok false) ∧
    (a.rows_ = b.rows_ → a.columns_ = b.columns_ →
      ∀ i j, a.fileDescriptor_.ino = some i → a.fileDescriptor_.failed = false →
        b.fileDescriptor_.ino = some j → b.fileDescriptor_.failed = false →
        (fs.bytes i).length = (fs.bytes j).length →
        operatorEq fs a b = .ok (decide (fs.bytes i = fs.bytes j))) ∧
    operatorEq fs a a = .ok true ∧
    (∀ r, operatorEq fs a b = .ok r → operatorNe fs a b = .ok (!r)) ∧
    (operatorEq fs a b = .undefined → operatorNe fs a b = .undefined) := by
  refine ⟨?_, ?_, ?_, ?_, ?_⟩
  · intro h
    simp only [operatorEq, if_pos h]
  · intro hr hc i j hai haf hbj hbf hlen
    have hs : ∀ s : FStream, ∀ n, s.ino = some n → s.failed = false →
        streamRest fs (s.seek 0) = fs.bytes n := by
      intro s n h1 h2
      rcases s with ⟨si, sf, sp⟩
      simp only at h1 h2
      subst h1 h2
      rw [seek_open _ _ _ (by simp [streamoffLimit])]
      simp [streamRest]
    have hd : ¬ (a.rows_ ≠ b.rows_ ∨ a.columns_ ≠ b.columns_) := by simp [hr, hc]
    simp only [operatorEq, if_neg hd, hs _ _ hai haf, hs _ _ hbj hbf,
      equalRange_same_length _ _ hlen]
  · have hd : ¬ (a.rows_ ≠ a.rows_ ∨ a.columns_ ≠ a.columns_) := by simp
    simp only [operatorEq, if_neg hd, equalRange_self]
  · intro r h
    simp only [operatorNe, h]
  · intro h
    simp only [operatorNe, h]

/-- C8 (witness): two fresh 1-by-1 matrices on different files compare equal,
their files being byte-identical. -/
theorem operatorEq_spec_witness :
    ∃ fs1 a fs2 b, create 1 FileSystem.empty 1 1 "a.matrix" = .ok (fs1, a) ∧
      create 1 fs1 1 1 "b.matrix" = .ok (fs2, b) ∧
      operatorEq fs2 a b = .ok (decide (fs2.bytes 0 = fs2.bytes 1)) ∧
      fs2.bytes 0 = fs2.bytes 1 := by
  refine ⟨_, _, _, _, rfl, rfl, ?_, ?_⟩
  · exact (operatorEq_spec _ _ _).2.1 (by rfl) (by rfl) 0 1 (by rfl) (by rfl) (by rfl) (by rfl)
      (by decide)
  · decide

/-! ## Scalar multiplication (C9) -/

/-- On a healthy matrix `flush` returns normally in a healthy state, every row
reads as before and the file holds every row as the program sees it. -/
theorem flush_wellFormed (E : Nat) (fs : FileSystem) (m : Matrix) (hw : WellFormed E fs m) :
    ∃ fs1 m1 k, flush E fs m = .ok (fs1, m1) ∧ WellFormed E fs1 m1 ∧
      m1.rows_ = m.rows_ ∧ m1.columns_ = m.columns_ ∧ m1.filename_ = m.filename_ ∧
      m1.currentRowNumber_ = m.currentRowNumber_ ∧ m1.currentRow_ = m.currentRow_ ∧
      m1.fileDescriptor_.ino = some k ∧
      (∀ r1, r1 < m.rows_ → fileRow E (fs1.bytes k) m.columns_ r1 = logicalRow E fs m r1) ∧
      (∀ r1, r1 < m.rows_ → logicalRow E fs1 m1 r1 = logicalRow E fs m r1) := by
  obtain ⟨k, buf, hk, hf, hlen, hlim, hrow, hbuf, hcur⟩ := hw
  have hfd : m.fileDescriptor_ = ⟨some k, false, m.fileDescriptor_.pos⟩ := by
    rcases hm : m.fileDescriptor_ with ⟨i, f, p⟩
    rw [hm] at hk hf
    simp only at hk hf
    subst hk hf
    rfl
  have hrows : ∀ r1, r1 < m.rows_ →
      fileRow E (writeAt (fs.bytes k)
        (2 * sizeofIndex + m.currentRowNumber_ * m.columns_ * E) buf) m.columns_ r1
        = logicalRow E fs m r1 := by
    intro r1 _
    rw [fileRow_writeAt E _ m.rows_ m.columns_ _ buf r1 hlen hbuf hcur,
      logicalRow_eq E fs m k buf r1 hk hrow]
  have hb := row_end_le m.rows_ m.columns_ E m.currentRowNumber_ hcur
  have hlenW : (writeAt (fs.bytes k)
      (2 * sizeofIndex + m.currentRowNumber_ * m.columns_ * E) buf).length
      = 2 * sizeofIndex + m.rows_ * m.columns_ * E := by
    rw [length_writeAt _ _ _ (by omega)]
    exact hlen
  refine ⟨_, _, k, flush_resident E fs m k _ buf hfd hrow hbuf hcur hlim,
    ?_, rfl, rfl, rfl, rfl, hrow.symm, rfl, ?_, ?_⟩
  · refine ⟨k, buf, rfl, rfl, ?_, hlim, rfl, hbuf, hcur⟩
    simp only [Function.update_same]
    exact hlenW
  · intro r1 h1
    simp only [Function.update_same]
    exact hrows r1 h1
  · intro r1 h1
    rw [logicalRow_eq E _ _ k buf r1 rfl rfl, logicalRow_eq E fs m k buf r1 hk hrow]
    simp only [Function.update_same]
    rw [fileRow_writeAt E _ m.rows_ m.columns_ _ buf r1 hlen hbuf hcur]
    split <;> rfl

theorem rowElements_length (E n : Nat) (raw : List Nat) : (rowElements E n raw).length = n := by
  induction n generalizing raw with
  | zero => rfl
  | succ n ih => simp [rowElements, ih]

theorem scaleRow_length (E k n : Nat) (raw : List Nat) :
    (scaleRow E k n raw).length = n * E := by
  simp [scaleRow, encodeRow_length, rowElements_length]

theorem rowElements_scaleRow (E k n : Nat) (raw : List Nat) :
    rowElements E n (scaleRow E k n raw) = (rowElements E n raw).map (fun x => mulElem E x k) := by
  have h := rowElements_encodeRow E ((rowElements E n raw).map (fun x => mulElem E x k))
    (by
      intro x hx
      obtain ⟨y, -, rfl⟩ := List.mem_map.1 hx
      exact Nat.mod_lt _ (by positivity))
  simpa [scaleRow, rowElements_length] using h


/-- Loop invariant of the scalar multiplication: after the rows from `r` on have
been processed they read as the scaled old rows, earlier rows read as before,
and the file holds what the program sees. -/
theorem mulAssignLoop_spec (E k : Nat) : ∀ (count r : Nat) (fs : FileSystem) (m : Matrix),
    WellFormed E fs m → r + count = m.rows_ →
    ∃ fs1 m1 i, mulAssignLoop E k count r fs m = .ok (fs1, m1) ∧ WellFormed E fs1 m1 ∧
      m1.rows_ = m.rows_ ∧ m1.columns_ = m.columns_ ∧ m1.filename_ = m.filename_ ∧
      m1.fileDescriptor_.ino = some i ∧
      (∀ r1, r1 < m.rows_ → logicalRow E fs1 m1 r1 =
        if r ≤ r1 then scaleRow E k m.columns_ (logicalRow E fs m r1)
        else logicalRow E fs m r1) ∧
      ((0 < count ∨ ∀ r1, r1 < m.rows_ → ∀ j, m.fileDescriptor_.ino = some j →
          fileRow E (fs.bytes j) m.columns_ r1 = logicalRow E fs m r1) →
        ∀ r1, r1 < m.rows_ → fileRow E (fs1.bytes i) m.columns_ r1 = logicalRow E fs1 m1 r1) := by
  intro count
  induction count with
  | zero =>
    intro r fs m hw hr
    obtain ⟨i, buf, hi, -⟩ := id hw
    refine ⟨fs, m, i, rfl, hw, rfl, rfl, rfl, hi, ?_, ?_⟩
    · intro r1 h1
      rw [if_neg (by omega)]
    · intro h r1 h1
      rcases h with h | h
      · omega
      · exact h r1 h1 i hi
  | succ count ih =>
    intro r fs m hw hr
    obtain ⟨fs1, m1, i, h1, w1, r1e, c1e, f1e, n1, b1, -, i1, -, -, l1⟩ :=
      loadRow_wellFormed E fs m r hw (by omega)
    have hst : ({ m1 with currentRow_ := m1.currentRow_.map (scaleRow E k m1.columns_) } : Matrix)
        = m1.store (scaleRow E k m.columns_ (logicalRow E fs m r)) := by
      simp only [b1, Option.map_some', Matrix.store, c1e]
    have w1s := store_wellFormed E fs1 m1 (scaleRow E k m.columns_ (logicalRow E fs m r)) w1
      (by rw [scaleRow_length, c1e])
    obtain ⟨fs2, m2, i2, h2, w2, r2e, c2e, f2e, -, -, k2, fl2, l2⟩ :=
      flush_wellFormed E fs1 _ w1s
    replace r2e : m2.rows_ = m1.rows_ := r2e
    replace c2e : m2.columns_ = m1.columns_ := c2e
    replace f2e : m2.filename_ = m1.filename_ := f2e
    replace fl2 : ∀ q, q < m1.rows_ → fileRow E (fs2.bytes i2) m1.columns_ q =
        logicalRow E fs1 (m1.store (scaleRow E k m.columns_ (logicalRow E fs m r))) q := fl2
    replace l2 : ∀ q, q < m1.rows_ → logicalRow E fs2 m2 q =
        logicalRow E fs1 (m1.store (scaleRow E k m.columns_ (logicalRow E fs m r))) q := l2
    obtain ⟨fs3, m3, i3, h3, w3, r3e, c3e, f3e, k3, l3, fl3⟩ :=
      ih (r + 1) fs2 m2 w2 (by omega)
    refine ⟨fs3, m3, i3, ?_, w3, by omega, by omega, ?_, k3, ?_, ?_⟩
    · simp only [mulAssignLoop, h1, hst, h2, h3]
    · rw [f3e, f2e, f1e]
    · intro q hq
      have e3 := l3 q (by omega)
      have e2 := l2 q (by omega)
      have e1 := logicalRow_store E fs1 m1 (scaleRow E k m.columns_ (logicalRow E fs m r)) q w1
      have e0 := l1 q hq
      rw [e3, e2, e1, n1, e0, c2e, c1e]
      by_cases hq1 : q = r
      · subst hq1
        simp
      · by_cases hq2 : r + 1 ≤ q
        · rw [if_pos hq2, if_neg hq1, if_pos (by omega)]
        · rw [if_neg hq2, if_neg hq1, if_neg (by omega)]
    · intro _ q hq
      have := fl3 (Or.inr (fun q1 hq1 j hj => by
        rw [k2] at hj
        cases hj
        rw [c2e, c1e, r2e, r1e] at *
        rw [fl2 q1 (by omega), l2 q1 (by omega)])) q (by omega)
      rw [c2e, c1e] at this
      exact this

/-- C9 (counterexample): two matrices with dimensions on which `m *= 3` scales
nothing. The first is created 1-by-1 at the empty path, where no file can be
opened, and holds 5 in its resident row; the second is move-constructed from a
2-by-2 matrix whose row 0 holds 1, 2 and was flushed, and its stream, opened
before the rename, is not open. On a failed stream every write and read does
nothing, each load leaves a zeroed buffer, and row 0 reads as zeros afterwards
(not 15, and not 3, 6); the file of the second still holds 1, 2. -/
theorem mulAssign_scales_nothing_on_failed_stream :
    (∃ fs m fs1 m1 fs2 m2, create 1 FileSystem.empty 1 1 "" = .ok (fs, m) ∧
      (m.store [5]).currentRowNumber_ = 0 ∧ (m.store [5]).currentRow_ = some [5] ∧
      mulAssign 1 fs (m.store [5]) 3 = .ok (fs1, m1) ∧
      index 1 fs1 m1 0 = .ok (fs2, m2) ∧
      m2.currentRow_.map (rowElements 1 1) = some [0]) ∧
    (∃ fs m fs0 m0 fs1 m1 fs2 m2,
      create 1 FileSystem.empty 2 2 "a.matrix" = .ok (fs, m) ∧
      flush 1 fs (m.store [1, 2]) = .ok (fs0, m0) ∧
      (moveConstruct fs0 m0).2.1.rows = 2 ∧ (moveConstruct fs0 m0).2.1.columns = 2 ∧
      (moveConstruct fs0 m0).2.1.currentRow_ = some [1, 2] ∧
      mulAssign 1 (moveConstruct fs0 m0).1 (moveConstruct fs0 m0).2.1 3 = .ok (fs1, m1) ∧
      index 1 fs1 m1 0 = .ok (fs2, m2) ∧
      m2.currentRow_.map (rowElements 1 2) = some [0, 0] ∧
      (fs2.fileAt "a_move.matrix").map (fun image => fileRow 1 image 2 0) = some [1, 2]) :=
  ⟨⟨_, _, _, _, _, _, rfl, by decide, by decide, rfl, rfl, by decide⟩,
   ⟨_, _, _, _, _, _, _, _, rfl, rfl, by decide, by decide, by decide, rfl, rfl, by decide,
     by decide⟩⟩

/-- C9 (amended): for every matrix with dimensions `(R, C)` in a healthy state
(stream open and not failed on a backing file of exactly `2 * I + R * C * E`
bytes, that size being a valid stream offset, and a resident row of `C`
elements with index below `R`) or without rows, with unsigned elements of `E`
bytes, and every scalar `k`: `m *= k` returns normally with `rows()` and
`columns()` unchanged; afterwards reading any row `r < R` returns, column by
column, the elements the row held before multiplied by `k` (modulo `256 ^ E`),
and the file holds that row too. -/
theorem mulAssign_scales_every_row (E : Nat) (fs : FileSystem) (m : Matrix) (k : Nat)
    (hw : WellFormed E fs m ∨ m.rows_ = 0) :
    ∃ fs1 m1, mulAssign E fs m k = .ok (fs1, m1) ∧
      m1.rows = m.rows ∧ m1.columns = m.columns ∧
      ∀ r, r < m.rows_ →
        (∃ fs2 m2, index E fs1 m1 r = .ok (fs2, m2) ∧
          m2.currentRow_.map (rowElements E m.columns_) =
            some ((rowElements E m.columns_ (logicalRow E fs m r)).map
              (fun x => mulElem E x k))) ∧
        (∃ i, m1.fileDescriptor_.ino = some i ∧
          rowElements E m.columns_ (fileRow E (fs1.bytes i) m.columns_ r) =
            (rowElements E m.columns_ (logicalRow E fs m r)).map (fun x => mulElem E x k)) := by
  rcases hw with hw | h0
  · obtain ⟨fs1, m1, i, h1, w1, r1e, c1e, -, k1, l1, fl1⟩ :=
      mulAssignLoop_spec E k m.rows_ 0 fs m hw (by omega)
    have hpos : 0 < m.rows_ := by
      obtain ⟨_, _, _, _, _, _, _, _, hcur⟩ := hw
      omega
    refine ⟨fs1, m1, h1, r1e, c1e, ?_⟩
    intro r hr
    have hl := l1 r hr
    rw [if_pos (Nat.zero_le r)] at hl
    constructor
    · obtain ⟨fs2, m2, -, h2, -, -, -, -, -, b2, -, -, -, -, -⟩ :=
        loadRow_wellFormed E fs1 m1 r w1 (by omega)
      refine ⟨fs2, m2, h2, ?_⟩
      rw [b2, hl, Option.map_some', rowElements_scaleRow]
    · refine ⟨i, k1, ?_⟩
      rw [fl1 (Or.inl hpos) r hr, hl, rowElements_scaleRow]
  · refine ⟨fs, m, ?_, rfl, rfl, ?_⟩
    · simp only [mulAssign, h0, mulAssignLoop]
    · intro r hr
      omega

/-- C9 (witness): the 2-by-2 sample matrix with rows 1, 2 and 3, 4 times 3. -/
theorem mulAssign_scales_every_row_witness :
    WellFormed 1 sampleFs sampleMatrix ∧
    (∃ fs1 m1, mulAssign 1 sampleFs sampleMatrix 3 = .ok (fs1, m1) ∧
      m1.rows = sampleMatrix.rows ∧ m1.columns = sampleMatrix.columns ∧
      ∀ r, r < sampleMatrix.rows_ →
        (∃ fs2 m2, index 1 fs1 m1 r = .ok (fs2, m2) ∧
          m2.currentRow_.map (rowElements 1 sampleMatrix.columns_) =
            some ((rowElements 1 sampleMatrix.columns_ (logicalRow 1 sampleFs sampleMatrix r)).map
              (fun x => mulElem 1 x 3))) ∧
        (∃ i, m1.fileDescriptor_.ino = some i ∧
          rowElements 1 sampleMatrix.columns_ (fileRow 1 (fs1.bytes i) sampleMatrix.columns_ r) =
            (rowElements 1 sampleMatrix.columns_ (logicalRow 1 sampleFs sampleMatrix r)).map
              (fun x => mulElem 1 x 3))) ∧
    (∃ fs1 m1 fs2 m2, mulAssign 1 sampleFs sampleMatrix 3 = .ok (fs1, m1) ∧
      index 1 fs1 m1 1 = .ok (fs2, m2) ∧
      m2.currentRow_.map (rowElements 1 2) = some [9, 12] ∧
      fs2.fileAt "a.matrix" =
        some [2, 0, 0, 0, 0, 0, 0, 0, 2, 0, 0, 0, 0, 0, 0, 0, 3, 6, 9, 12]) :=
  have hw : WellFormed 1 sampleFs sampleMatrix :=
    ⟨0, [1, 2], rfl, rfl, by decide, by decide, rfl, by decide, by decide⟩
  ⟨hw, mulAssign_scales_every_row 1 sampleFs sampleMatrix 3 (Or.inl hw),
    ⟨_, _, _, _, rfl, rfl, by decide, by decide⟩⟩

end FileMatrix
